import Mathlib

/-!
Verification of the artifish crawl/reconciliation core.

We shallowly embed the follow-edge store and the operations that touch it:
`DatabaseService.add_follow_relationship` (src/artifish/db/db_service.py),
the standalone unfollow-detection pass
`UnfollowDetector._process_account_unfollows` (src/workers/unfollow_detector.py),
and the rate-limit / token / traversal logic of
`BlueskyAPIClient` and `NetworkTraversal` (src/workers/network_traversal_db_queue.py).

The follows table is a list of rows; dids are strings; times are integers
(seconds) or naturals where only ordering matters.
-/

namespace Artifish

/-- `follow_status` column: `active` or `unfollowed`. -/
inductive FollowStatus
  | active
  | unfollowed
deriving DecidableEq, Repr

/-- One row of the `follows` table. -/
structure FollowRow where
  id : Nat
  follower : String
  following : String
  status : FollowStatus
  createdAt : Nat
  lastVerifiedAt : Nat
  unfollowedAt : Option Nat
deriving DecidableEq, Repr

/-- The stored active follow-set of a subject: `following` dids of rows
with `follower_did = did` and `follow_status = 'active'`
(the select in `_process_account_unfollows`). -/
def activeFollows (table : List FollowRow) (did : String) : List String :=
  (table.filter fun r => decide (r.follower = did ∧ r.status = FollowStatus.active)).map
    fun r => r.following

/-- Status of the row with primary key `fid`, if any. -/
def statusOf (table : List FollowRow) (fid : Nat) : Option FollowStatus :=
  (table.find? fun r => decide (r.id = fid)).map fun r => r.status

/-- Number of rows for the ordered pair `(a, b)`. -/
def pairCount (table : List FollowRow) (a b : String) : Nat :=
  (table.filter fun r => decide (r.follower = a ∧ r.following = b)).length

/-- `DatabaseService.add_follow_relationship`: select rows matching the pair;
if one exists return the first and insert nothing, else insert a fresh row
(status defaults to active) and return it. -/
def addFollowRelationship (table : List FollowRow) (a b : String) (freshId now : Nat) :
    Option FollowRow × List FollowRow :=
  match table.find? fun r => decide (r.follower = a ∧ r.following = b) with
  | some r => (some r, table)
  | none =>
      let r : FollowRow :=
        { id := freshId, follower := a, following := b, status := FollowStatus.active,
          createdAt := now, lastVerifiedAt := now, unfollowedAt := none }
      (some r, table ++ [r])

/-- Python-dict insertion with last-write-wins semantics, preserving key order
(the dict comprehension in `_process_account_unfollows`). -/
def dictInsert (d : List (String × Nat)) (k : String) (v : Nat) : List (String × Nat) :=
  if d.any fun p => decide (p.1 = k) then
    d.map fun p => if p.1 = k then (k, v) else p
  else d ++ [(k, v)]

/-- `db_follows = {follow['following_did']: follow['id'] for ...}` over the
subject's active rows. -/
def dbFollowsDict (table : List FollowRow) (did : String) : List (String × Nat) :=
  (table.filter fun r => decide (r.follower = did ∧ r.status = FollowStatus.active)).foldl
    (fun d r => dictInsert d r.following r.id) []

/-- The transition applied to a detected unfollow: set status and stamp. -/
def retireRow (now : Nat) (r : FollowRow) : FollowRow :=
  { r with status := FollowStatus.unfollowed, unfollowedAt := some now }

/-- The update `.eq('id', follow_id)` marking one row unfollowed. -/
def markUnfollowed (table : List FollowRow) (fid : Nat) (now : Nat) : List FollowRow :=
  table.map fun r => if r.id = fid then retireRow now r else r

/-- `unfollowed_dids = set(db_follows.keys()) - current_follows`, with the
row id each did maps to. -/
def unfollowedPairs (table : List FollowRow) (did : String) (F : List String) :
    List (String × Nat) :=
  (dbFollowsDict table did).filter fun p => decide (p.1 ∉ F)

/-- `UnfollowDetector._process_account_unfollows`: load the subject's active
follows from the table, diff against the observed set `F`, and mark each
did in the difference unfollowed by row id. -/
def processAccountUnfollows (table : List FollowRow) (did : String) (F : List String)
    (now : Nat) : List FollowRow :=
  (unfollowedPairs table did F).foldl (fun t p => markUnfollowed t p.2 now) table

/-- Rows inserted by the reconciliation procedure for the newly observed dids,
with store-generated consecutive fresh ids. -/
def mkInsertRows (did : String) (now : Nat) : Nat → List String → List FollowRow
  | _, [] => []
  | i, d :: ds =>
      { id := i, follower := did, following := d, status := FollowStatus.active,
        createdAt := now, lastVerifiedAt := now, unfollowedAt := none } ::
        mkInsertRows did now (i + 1) ds

/-- Modelled from the spec: the per-row update of the store-side procedure
`process_account_follows` (invoked by `NetworkTraversal._process_account`
but not present under src/), following the reconciliation algorithm of spec
section 4.3: a stored active row of the subject is refreshed
(`last_verified_at := now`) when its target is in the observed set `F`,
retired as unfollowed otherwise; all other rows are untouched. -/
def diffUpdateRow (did : String) (F : List String) (now : Nat) (r : FollowRow) : FollowRow :=
  if r.follower = did ∧ r.status = FollowStatus.active then
    if r.following ∈ F then { r with lastVerifiedAt := now }
    else retireRow now r
  else r

/-- Modelled from the spec: the whole `process_account_follows` reconciliation
procedure — apply `diffUpdateRow` to every stored row, append the inserts for
`F − S`, and return the table with the counts
`(|F − S|, |S ∩ F|, |S − F|)`. -/
def applyFollowDiff (table : List FollowRow) (did : String) (F : List String)
    (now freshId : Nat) : List FollowRow × Nat × Nat × Nat :=
  let S := activeFollows table did
  let newDids := F.filter fun d => decide (d ∉ S)
  (table.map (diffUpdateRow did F now) ++ mkInsertRows did now freshId newDids,
   newDids.length,
   (S.filter fun d => decide (d ∈ F)).length,
   (S.filter fun d => decide (d ∉ F)).length)

/-- The operations of the crawl/detector pipeline that touch the `follows`
table through src/ code: an edge insertion attempt
(`NetworkCrawlerService.crawl` calls `add_follow_relationship` once per
observed follow/follower pair) and an unfollow-detection pass. -/
inductive CrawlOp
  | addF (a b : String) (freshId now : Nat)
  | unfPass (did : String) (F : List String) (now : Nat)

/-- Effect of one pipeline operation on the follows table. -/
def applyOp (table : List FollowRow) : CrawlOp → List FollowRow
  | CrawlOp.addF a b freshId now => (addFollowRelationship table a b freshId now).2
  | CrawlOp.unfPass did F now => processAccountUnfollows table did F now

/-- Effect of a sequence of pipeline operations. -/
def applyOps (table : List FollowRow) (ops : List CrawlOp) : List FollowRow :=
  ops.foldl applyOp table

/-! ## Rate-limit and token state (`BlueskyAPIClient`) -/

/-- The client's rate-limit budget: `rate_limit_remaining` and
`rate_limit_reset` (an absolute time). -/
structure RateState where
  remaining : Int
  reset : Int
deriving DecidableEq, Repr

/-- Abstraction of the `ratelimit-*` response headers: `limitPresent` is
membership of `"ratelimit-limit"`; for the other two, `none` means the header
is absent (Python falls back to the defaults 100 resp. 0), `some none` means
present but not parseable as an integer (`int()` raises), `some (some n)`
means it parses to `n`. -/
structure RateHeaders where
  limitPresent : Bool
  remainingHdr : Option (Option Int)
  resetHdr : Option (Option Int)

/-- `headers.get(key, default)` followed by `int()`. -/
def headerVal (dflt : Int) : Option (Option Int) → Option Int
  | none => some dflt
  | some v => v

/-- `BlueskyAPIClient._update_rate_limit`: only acts when `ratelimit-limit`
is present; then parses remaining and reset (reset is a delta added to the
current time); if either parse raises, both fields fall back to the
conservative defaults `remaining = 10`, `reset = now + 60`. -/
def updateRateLimit (st : RateState) (h : RateHeaders) (now : Int) : RateState :=
  if h.limitPresent then
    match headerVal 100 h.remainingHdr, headerVal 0 h.resetHdr with
    | some r, some d => { remaining := r, reset := now + d }
    | _, _ => { remaining := 10, reset := now + 60 }
  else st

/-- The sleep performed by the rate-limit half of
`BlueskyAPIClient._check_rate_limit` before a request attempted at `now`:
when `remaining < 10` and the reset time is still ahead, sleep
`(reset − now) + 1` seconds; otherwise proceed at once. -/
def checkRateLimitDelay (st : RateState) (now : Int) : Int :=
  if st.remaining < 10 then
    if max 0 (st.reset - now) > 0 then max 0 (st.reset - now) + 1 else 0
  else 0

/-- The time at which the request attempted at `now` is actually issued. -/
def nextRequestTime (st : RateState) (now : Int) : Int :=
  now + checkRateLimitDelay st now

/-- `BlueskyAPIClient.is_token_expired`: true when there is no token or no
creation stamp, or when `now` is within the 300-second buffer of
`token_created_at + token_expires_in`. -/
def isTokenExpired (hasToken : Bool) (tokenCreatedAt : Option Int)
    (tokenExpiresIn : Int) (now : Int) : Bool :=
  if hasToken = false then true
  else
    match tokenCreatedAt with
    | none => true
    | some t0 => decide (now ≥ t0 + tokenExpiresIn - 300)

/-- The token half of `BlueskyAPIClient._check_rate_limit`: a refresh is
performed before the request iff credentials are configured and
`is_token_expired` holds. -/
def refreshBeforeRequest (hasCreds hasToken : Bool) (tokenCreatedAt : Option Int)
    (tokenExpiresIn : Int) (now : Int) : Bool :=
  hasCreds && isTokenExpired hasToken tokenCreatedAt tokenExpiresIn now

/-! ## Per-account processing (`NetworkTraversal`) -/

/-- Behaviour of the remote `getFollows` endpoint across the successive page
fetches of one enumeration: the `k`-th entry describes the `k`-th fetch.
`none` models a fetch that fails (exception or non-200 status), which
`BlueskyAPIClient.get_follows` swallows and surfaces as `{"follows": []}`;
`some (page, more)` is a 200 response with the page's dids and whether a
`cursor` for a further page is returned. -/
def FollowsApi := List (Option (List String × Bool))

/-- `NetworkTraversal._collect_all_follows`: loop fetching pages, stopping
when the returned follow list is empty (including the failure case) or no
cursor is returned, accumulating the dids seen so far. -/
def collectAllFollows : FollowsApi → List String
  | [] => []
  | none :: _ => []
  | some (page, more) :: rest =>
      if page.isEmpty then []
      else page ++ if more then collectAllFollows rest else []

/-- Number of `getFollows` requests the pagination loop actually issues. -/
def collectFollowsFetches : FollowsApi → Nat
  | [] => 0
  | none :: _ => 1
  | some (page, more) :: rest =>
      if page.isEmpty then 1
      else 1 + if more then collectFollowsFetches rest else 0

/-- `crawl_status` outcome recorded via `mark_account_crawled`. -/
inductive CrawlOutcome
  | completed
  | failed
  | error
deriving DecidableEq, Repr

/-- Observable effects of `NetworkTraversal._process_account` on one account:
the recorded outcome, how many follow-page fetches were issued, and the
follow-set handed to the `process_account_follows` reconciliation procedure
(`none` when reconciliation is not invoked). -/
structure AccountResult where
  outcome : CrawlOutcome
  followFetchCount : Nat
  reconciledWith : Option (List String)
deriving DecidableEq, Repr

/-- `NetworkTraversal._process_account`: when the profile fetch returns
nothing, mark `failed` and stop; otherwise collect the follow pages and
invoke reconciliation with whatever list the pagination loop returned, then
mark `completed`. -/
def processAccount (profile : Option String) (api : FollowsApi) : AccountResult :=
  match profile with
  | none => { outcome := CrawlOutcome.failed, followFetchCount := 0, reconciledWith := none }
  | some _ =>
      { outcome := CrawlOutcome.completed,
        followFetchCount := collectFollowsFetches api,
        reconciledWith := some (collectAllFollows api) }

/-! ## The traversal main loop (`NetworkTraversal.start`) -/

/-- `batch_size = min(10, max_accounts)`. -/
def batchSize (maxAccounts : Nat) : Nat := min 10 maxAccounts

/-- The main loop of `NetworkTraversal.start` over the successive batches the
queue hands out: the `total_processed < max_accounts` guard is checked only
before pulling a batch, and every account of a pulled batch is processed. -/
def runLoop (maxAccounts : Nat) : List (List String) → Nat → Nat
  | [], total => total
  | b :: rest, total =>
      if total < maxAccounts then runLoop maxAccounts rest (total + b.length)
      else total

/-- Total number of accounts a run processes, given the batch sequence the
queue produces. -/
def totalProcessed (maxAccounts : Nat) (batches : List (List String)) : Nat :=
  runLoop maxAccounts batches 0

/-! ## Token refresh (C5) -/

/-- Claim C5: with credentials configured and a token with `expires_in = 3600`
created at `t0`, a request attempted at any time within the 300-second buffer
of expiry (i.e. at or after `t0 + 3300`) triggers a token refresh before the
request, and a request attempted earlier does not. -/
theorem token_refresh_buffer (t0 now : Int) :
    (t0 + 3300 ≤ now → refreshBeforeRequest true true (some t0) 3600 now = true) ∧
    (now < t0 + 3300 → refreshBeforeRequest true true (some t0) 3600 now = false) := by
  constructor
  · intro h
    simp only [refreshBeforeRequest, isTokenExpired, Bool.true_and]
    simp only [if_neg (by simp : ¬(true = false))]
    rw [decide_eq_true_eq]
    omega
  · intro h
    simp only [refreshBeforeRequest, isTokenExpired, Bool.true_and]
    simp only [if_neg (by simp : ¬(true = false))]
    rw [decide_eq_false_iff_not]
    omega

/-- Witness for C5 at `t0 = 0`: a request at `t = 3350 = t0 + 3600 - 250`
refreshes, a request at `t = 1000` does not. -/
theorem token_refresh_buffer_witness :
    refreshBeforeRequest true true (some 0) 3600 3350 = true ∧
    refreshBeforeRequest true true (some 0) 3600 1000 = false :=
  ⟨(token_refresh_buffer 0 3350).1 (by norm_num),
   (token_refresh_buffer 0 1000).2 (by norm_num)⟩

/-! ## Rate-limit respect (C6) -/

/-- A request attempted while the remaining budget is under the low-water
mark is delayed until at or past the stored reset time. -/
theorem reset_le_nextRequestTime (st : RateState) (now : Int)
    (h : st.remaining < 10) : st.reset ≤ nextRequestTime st now := by
  unfold nextRequestTime checkRateLimitDelay
  rw [if_pos h]
  have h1 : st.reset - now ≤ max 0 (st.reset - now) := le_max_right _ _
  by_cases h2 : max 0 (st.reset - now) > 0
  · rw [if_pos h2]; omega
  · rw [if_neg h2]; omega

/-- Claim C6: after a response whose rate-limit headers report
`remaining = 5` and a reset delta `d` (stored as the absolute reset time
`T = tr + d`), the stored budget is 5 and every request attempted at any
later instant is issued only at a time `≥ T`; since the client is
single-threaded, no request is issued strictly between the response and
`T`. -/
theorem rate_limit_respected (st0 : RateState) (d tr now : Int) :
    (updateRateLimit st0 ⟨true, some (some 5), some (some d)⟩ tr).remaining = 5 ∧
    (updateRateLimit st0 ⟨true, some (some 5), some (some d)⟩ tr).reset = tr + d ∧
    (updateRateLimit st0 ⟨true, some (some 5), some (some d)⟩ tr).reset ≤
      nextRequestTime (updateRateLimit st0 ⟨true, some (some 5), some (some d)⟩ tr) now :=
  ⟨rfl, rfl, reset_le_nextRequestTime _ _ (by norm_num [updateRateLimit, headerVal])⟩

/-! ## Rate-limit header fallback (C7) -/

/-- Counterexample to claim C7 as stated: (i) a response missing its
rate-limit headers leaves the budget unchanged (here a roomy
`remaining = 100`) instead of falling back to a near-exhausted conservative
default, and (ii) even after the malformed-header fallback, the next request
gets a zero delay (the fallback value 10 is not below the `< 10` low-water
mark), so no cool-down is applied. -/
theorem rate_limit_fallback_counterexample :
    updateRateLimit ⟨100, 7⟩ ⟨false, none, none⟩ 50 = ⟨100, 7⟩ ∧
    checkRateLimitDelay (updateRateLimit ⟨100, 7⟩ ⟨true, some none, some none⟩ 50) 55 = 0 := by
  exact ⟨rfl, rfl⟩

/-- Claim C7 (amended): the budget is updated from the headers only when
`ratelimit-limit` is present (with well-formed values stored as reported);
when it is present but the remaining/reset values are malformed, the client
falls back to `remaining = 10`, `reset = now + 60` without raising; when the
headers are missing entirely the budget is left unchanged; and the fallback
value 10 never triggers the cool-down, which fires only for `remaining < 10`. -/
theorem rate_limit_fallback_amended (st : RateState) (rem rst : Option (Option Int))
    (r dd t now : Int) :
    updateRateLimit st ⟨true, some (some r), some (some dd)⟩ now = ⟨r, now + dd⟩ ∧
    updateRateLimit st ⟨true, some none, rst⟩ now = ⟨10, now + 60⟩ ∧
    updateRateLimit st ⟨true, some (some r), some none⟩ now = ⟨10, now + 60⟩ ∧
    updateRateLimit st ⟨false, rem, rst⟩ now = st ∧
    checkRateLimitDelay ⟨10, t⟩ now = 0 := by
  refine ⟨rfl, ?_, rfl, rfl, ?_⟩
  · rcases rst with _ | (_ | d') <;> rfl
  · unfold checkRateLimitDelay
    rw [if_neg (by omega : ¬((10 : Int) < 10))]

/-! ## Failed profile fetch (C8) -/

/-- Claim C8: when the profile fetch returns no profile, per-account
processing records outcome `failed`, issues zero follow-page fetches, passes
nothing to reconciliation, and (being a total function) raises nothing, for
every possible behaviour of the follows endpoint. -/
theorem failed_profile_skips_follows (api : FollowsApi) :
    processAccount none api =
      { outcome := CrawlOutcome.failed, followFetchCount := 0, reconciledWith := none } :=
  rfl

/-! ## Partial pagination reaches reconciliation (C2) -/

/-- Evaluation for claim C2 at the failing input: the first `getFollows` page
returns `["did:a"]` with a cursor, and the second fetch fails. The code
swallows the failure as an empty page, ends pagination, and still hands the
partial set `["did:a"]` to `process_account_follows`, marking the account
`completed` — whereas a complete enumeration of the same remote state (second
fetch succeeding with `["did:b"]`) would have produced
`["did:a", "did:b"]`. -/
theorem partial_follows_passed_to_reconciliation :
    processAccount (some "seed.example") [some (["did:a"], true), none] =
      { outcome := CrawlOutcome.completed, followFetchCount := 2,
        reconciledWith := some ["did:a"] } ∧
    collectAllFollows [some (["did:a"], true), some (["did:b"], false)] =
      ["did:a", "did:b"] := by
  exact ⟨rfl, rfl⟩

/-! ## Traversal loop overshoot bound (C10) -/

/-- The loop processes at most `max(total, maxAccounts + batchSize − 1)`
accounts from any starting total, as the guard is only checked between
batches. -/
theorem runLoop_le (m : Nat) (batches : List (List String)) :
    ∀ total, (∀ b ∈ batches, b.length ≤ batchSize m) →
      runLoop m batches total ≤ max total (m + batchSize m - 1) := by
  induction batches with
  | nil => intro total _; exact le_max_left _ _
  | cons b rest ih =>
      intro total h
      unfold runLoop
      by_cases ht : total < m
      · rw [if_pos ht]
        have hb : b.length ≤ batchSize m := h b (by simp)
        have hrec := ih (total + b.length) fun x hx => h x (List.mem_cons_of_mem _ hx)
        omega
      · rw [if_neg ht]
        exact le_max_left _ _

/-- Claim C10: a run processes at most `max_accounts + batchSize − 1`
accounts, where `batchSize = min(10, max_accounts)`, whenever every batch the
queue returns respects the requested batch size; and the bound is attained
(with `max_accounts = 5`, four singleton batches followed by a full batch of
5 give 9 processed accounts). -/
theorem traversal_overshoot_bound (m : Nat) (batches : List (List String))
    (h : ∀ b ∈ batches, b.length ≤ batchSize m) :
    totalProcessed m batches ≤ m + batchSize m - 1 ∧
    totalProcessed 5 [["q"], ["q"], ["q"], ["q"], ["q", "q", "q", "q", "q"]] =
      5 + batchSize 5 - 1 := by
  refine ⟨?_, rfl⟩
  have := runLoop_le m batches 0 h
  simpa [totalProcessed] using this

/-- Witness for C10: three batches of sizes 1 and 2 under `max_accounts = 3`
stay within the bound `3 + min 10 3 - 1 = 5`. -/
theorem traversal_overshoot_bound_witness :
    totalProcessed 3 [["a"], ["b", "c"]] ≤ 3 + batchSize 3 - 1 :=
  (traversal_overshoot_bound 3 [["a"], ["b", "c"]] (by decide)).1

/-! ## The unfollow-detection diff (C1, C3, C4, C9) -/

/-- When the keys fed to the Python dict are pairwise distinct, building it is
plain accumulation of (key, value) pairs. -/
theorem foldl_dictInsert_eq (rows : List FollowRow) :
    ∀ d : List (String × Nat),
      (d.map Prod.fst ++ rows.map FollowRow.following).Nodup →
      rows.foldl (fun d r => dictInsert d r.following r.id) d
        = d ++ rows.map fun r => (r.following, r.id) := by
  induction rows with
  | nil => intro d _; simp
  | cons r rest ih =>
      intro d h
      have h' := h
      rw [List.map_cons, List.nodup_middle, List.nodup_cons] at h'
      have hfresh : ¬(d.any fun p => decide (p.1 = r.following)) = true := by
        simp only [List.any_eq_true, decide_eq_true_eq]
        rintro ⟨p, hp, hpk⟩
        exact h'.1 (List.mem_append_left _ (hpk ▸ List.mem_map_of_mem Prod.fst hp))
      have hins : dictInsert d r.following r.id = d ++ [(r.following, r.id)] := by
        unfold dictInsert
        rw [if_neg hfresh]
      rw [List.foldl_cons, hins,
        ih (d ++ [(r.following, r.id)])
          (by simpa [List.append_assoc] using h)]
      simp

/-- Folding the per-id unfollow updates over a list of (did, id) pairs
retires exactly the rows whose id occurs among the pairs. -/
theorem foldl_markUnfollowed_eq (now : Nat) (L : List (String × Nat)) :
    ∀ t : List FollowRow,
      L.foldl (fun t p => markUnfollowed t p.2 now) t
        = t.map fun r => if r.id ∈ L.map Prod.snd then retireRow now r else r := by
  induction L with
  | nil =>
      intro t
      simp
  | cons p rest ih =>
      intro t
      rw [List.foldl_cons, ih]
      unfold markUnfollowed
      rw [List.map_map]
      congr 1
      funext r
      by_cases h1 : r.id = p.2
      · simp only [Function.comp, if_pos h1]
        have hid : (retireRow now r).id = r.id := rfl
        have hretire : (if (retireRow now r).id ∈ rest.map Prod.snd
            then retireRow now (retireRow now r) else retireRow now r) = retireRow now r := by
          by_cases h2 : (retireRow now r).id ∈ rest.map Prod.snd
          · rw [if_pos h2]; rfl
          · rw [if_neg h2]
        rw [hretire, List.map_cons, if_pos (by rw [h1]; exact List.mem_cons_self _ _)]
      · simp only [Function.comp, if_neg h1, List.map_cons, List.mem_cons]
        by_cases h2 : r.id ∈ rest.map Prod.snd
        · rw [if_pos h2, if_pos (Or.inr h2)]
        · rw [if_neg h2, if_neg (by rintro (h3 | h3) <;> [exact h1 h3; exact h2 h3])]

/-- With the subject's active followings pairwise distinct, the Python dict
is exactly the list of (following, id) pairs of the subject's active rows. -/
theorem dbFollowsDict_eq (table : List FollowRow) (did : String)
    (hfol : ((table.filter fun r =>
        decide (r.follower = did ∧ r.status = FollowStatus.active)).map
          FollowRow.following).Nodup) :
    dbFollowsDict table did
      = (table.filter fun r =>
          decide (r.follower = did ∧ r.status = FollowStatus.active)).map
            fun r => (r.following, r.id) := by
  unfold dbFollowsDict
  rw [foldl_dictInsert_eq _ [] (by simpa using hfol)]
  simp

/-- The detector pass as one map over the table: on a well-formed table
(globally unique row ids, subject's active followings distinct), it retires
exactly the subject's active rows whose target is not in the observed set
`F`, and touches nothing else. -/
theorem processAccountUnfollows_eq_map (table : List FollowRow) (did : String)
    (F : List String) (now : Nat)
    (hids : (table.map FollowRow.id).Nodup)
    (hfol : ((table.filter fun r =>
        decide (r.follower = did ∧ r.status = FollowStatus.active)).map
          FollowRow.following).Nodup) :
    processAccountUnfollows table did F now
      = table.map fun r =>
          if r.follower = did ∧ r.status = FollowStatus.active ∧ r.following ∉ F
          then retireRow now r else r := by
  unfold processAccountUnfollows
  rw [foldl_markUnfollowed_eq]
  apply List.map_congr_left
  intro r hr
  have hchar : r.id ∈ (unfollowedPairs table did F).map Prod.snd ↔
      (r.follower = did ∧ r.status = FollowStatus.active ∧ r.following ∉ F) := by
    unfold unfollowedPairs
    rw [dbFollowsDict_eq table did hfol, List.filter_map, List.map_map]
    constructor
    · intro hmem
      simp only [List.map_map, List.mem_map, List.mem_filter, Function.comp,
        decide_eq_true_eq] at hmem
      obtain ⟨r', ⟨⟨hr'mem, hp1, hp2⟩, hr'notF⟩, hid⟩ := hmem
      have : r' = r := List.inj_on_of_nodup_map hids hr'mem hr hid
      subst this
      exact ⟨hp1, hp2, hr'notF⟩
    · rintro ⟨h1, h2, h3⟩
      simp only [List.map_map, List.mem_map, List.mem_filter, Function.comp,
        decide_eq_true_eq]
      exact ⟨r, ⟨⟨hr, h1, h2⟩, h3⟩, rfl⟩
  exact if_congr hchar rfl rfl

/-- Counterexample to claim C1 as stated: subject `"x"` has the single stored
active edge to `"b"`; the freshly observed complete follow-set is
`F = ["a", "b"]`. The unfollow-detection pass retires nothing (S − F = ∅) but
also inserts nothing, so afterwards the stored active follow-set is `["b"]`,
which does not contain `"a" ∈ F` — it is not equal to `F` as the claim
requires of the reconciliation diff. -/
theorem unfollow_pass_not_full_diff :
    "a" ∈ (["a", "b"] : List String) ∧
    "a" ∉ activeFollows
      (processAccountUnfollows
        [{ id := 1, follower := "x", following := "b", status := FollowStatus.active,
           createdAt := 0, lastVerifiedAt := 0, unfollowedAt := none }]
        "x" ["a", "b"] 5) "x" := by
  decide

/-- Claim C1 (amended): on a well-formed table, the standalone
unfollow-detection pass performs exactly the retirement half of the
reconciliation diff: edges in `S − F` are transitioned to unfollowed with
`unfollowed_at` set, edges in `S ∩ F` stay active and untouched, the
detected-unfollow count is `|S − F|`, and afterwards the stored active
follow-set equals `S ∩ F` (it equals `F` only when `F ⊆ S`, since the pass
inserts no edges for `F − S`). -/
theorem unfollow_pass_diff (table : List FollowRow) (did : String)
    (F : List String) (now : Nat)
    (hids : (table.map FollowRow.id).Nodup)
    (hfol : ((table.filter fun r =>
        decide (r.follower = did ∧ r.status = FollowStatus.active)).map
          FollowRow.following).Nodup) :
    processAccountUnfollows table did F now
      = (table.map fun r =>
          if r.follower = did ∧ r.status = FollowStatus.active ∧ r.following ∉ F
          then retireRow now r else r) ∧
    activeFollows (processAccountUnfollows table did F now) did
      = (activeFollows table did).filter (fun d => decide (d ∈ F)) ∧
    (unfollowedPairs table did F).length
      = ((activeFollows table did).filter fun d => decide (d ∉ F)).length := by
  refine ⟨processAccountUnfollows_eq_map table did F now hids hfol, ?_, ?_⟩
  · rw [processAccountUnfollows_eq_map table did F now hids hfol]
    unfold activeFollows
    rw [List.filter_map, List.map_map, List.filter_map, List.filter_filter]
    have hpred : ((fun r : FollowRow =>
          decide (r.follower = did ∧ r.status = FollowStatus.active)) ∘
        fun r => if r.follower = did ∧ r.status = FollowStatus.active ∧ r.following ∉ F
          then retireRow now r else r)
        = fun r => decide (r.following ∈ F) &&
            decide (r.follower = did ∧ r.status = FollowStatus.active) := by
      funext r
      by_cases h1 : r.follower = did <;> by_cases h2 : r.status = FollowStatus.active <;>
        by_cases h3 : r.following ∈ F <;>
        simp [Function.comp, h1, h2, h3, retireRow]
    rw [hpred]
    apply List.map_congr_left
    intro r hrmem
    have h := List.of_mem_filter hrmem
    simp only [Bool.and_eq_true, decide_eq_true_eq] at h
    simp only [Function.comp]
    rw [if_neg (by rintro ⟨-, -, hnot⟩; exact hnot h.1)]
  · unfold unfollowedPairs
    rw [dbFollowsDict_eq table did hfol, List.filter_map, List.length_map]
    unfold activeFollows
    rw [List.filter_map, List.length_map]
    rfl

/-- Witness for C1 (amended), the spec's Scenario A: stored active edges of
`"x"` are `{a, b, c}`, the observed set is `{b, c, d}`; the pass retires the
edge to `a`, keeps `b` and `c` active, and reports one detected unfollow. -/
theorem unfollow_pass_diff_witness :
    activeFollows
        (processAccountUnfollows
          [{ id := 1, follower := "x", following := "a", status := FollowStatus.active,
             createdAt := 0, lastVerifiedAt := 0, unfollowedAt := none },
           { id := 2, follower := "x", following := "b", status := FollowStatus.active,
             createdAt := 0, lastVerifiedAt := 0, unfollowedAt := none },
           { id := 3, follower := "x", following := "c", status := FollowStatus.active,
             createdAt := 0, lastVerifiedAt := 0, unfollowedAt := none }]
          "x" ["b", "c", "d"] 9) "x"
      = (activeFollows
          [{ id := 1, follower := "x", following := "a", status := FollowStatus.active,
             createdAt := 0, lastVerifiedAt := 0, unfollowedAt := none },
           { id := 2, follower := "x", following := "b", status := FollowStatus.active,
             createdAt := 0, lastVerifiedAt := 0, unfollowedAt := none },
           { id := 3, follower := "x", following := "c", status := FollowStatus.active,
             createdAt := 0, lastVerifiedAt := 0, unfollowedAt := none }]
          "x").filter (fun d => decide (d ∈ ["b", "c", "d"])) :=
  (unfollow_pass_diff _ "x" ["b", "c", "d"] 9 (by decide) (by decide)).2.1

/-! ## Reconciliation idempotence (C9) -/

/-- The stored active set distributes over table concatenation. -/
theorem activeFollows_append (t t' : List FollowRow) (did : String) :
    activeFollows (t ++ t') did = activeFollows t did ++ activeFollows t' did := by
  unfold activeFollows
  rw [List.filter_append, List.map_append]

/-- A subject-active row contributes its target to the stored active set. -/
theorem mem_activeFollows_of (t : List FollowRow) (did : String) (r : FollowRow)
    (hr : r ∈ t) (h1 : r.follower = did) (h2 : r.status = FollowStatus.active) :
    r.following ∈ activeFollows t did := by
  unfold activeFollows
  exact List.mem_map_of_mem _ (List.mem_filter.mpr ⟨hr, by simp [h1, h2]⟩)

/-- The rows freshly inserted for the new dids contribute exactly those dids
to the subject's stored active set. -/
theorem activeFollows_mkInsertRows (did : String) (now : Nat) :
    ∀ (ds : List String) (i : Nat), activeFollows (mkInsertRows did now i ds) did = ds := by
  intro ds
  induction ds with
  | nil => intro i; rfl
  | cons d rest ih =>
      intro i
      unfold mkInsertRows activeFollows
      rw [List.filter_cons, if_pos (by simp), List.map_cons]
      have := ih (i + 1)
      unfold activeFollows at this
      rw [this]

/-- Membership in the subject's active set after the per-row update phase:
exactly the previously active targets that are in the observed set remain. -/
theorem mem_activeFollows_diffUpdate (table : List FollowRow) (did : String)
    (F : List String) (now : Nat) (x : String) :
    x ∈ activeFollows (table.map (diffUpdateRow did F now)) did ↔
      x ∈ activeFollows table did ∧ x ∈ F := by
  unfold activeFollows
  simp only [List.mem_map, List.mem_filter, decide_eq_true_eq]
  constructor
  · rintro ⟨r', ⟨⟨r, hr, rfl⟩, hp1, hp2⟩, hx⟩
    by_cases hsa : r.follower = did ∧ r.status = FollowStatus.active
    · by_cases hF : r.following ∈ F
      · have heq : diffUpdateRow did F now r = { r with lastVerifiedAt := now } := by
          unfold diffUpdateRow
          rw [if_pos hsa, if_pos hF]
        rw [heq] at hx
        exact ⟨⟨r, ⟨hr, hsa.1, hsa.2⟩, hx⟩, hx ▸ hF⟩
      · have heq : diffUpdateRow did F now r = retireRow now r := by
          unfold diffUpdateRow
          rw [if_pos hsa, if_neg hF]
        rw [heq] at hp2
        exact absurd hp2 (by simp [retireRow])
    · have heq : diffUpdateRow did F now r = r := by
        unfold diffUpdateRow
        rw [if_neg hsa]
      rw [heq] at hp1 hp2
      exact absurd ⟨hp1, hp2⟩ hsa
  · rintro ⟨⟨r, ⟨hr, hp1, hp2⟩, hx⟩, hF⟩
    refine ⟨diffUpdateRow did F now r, ⟨⟨r, hr, rfl⟩, ?_⟩, ?_⟩
    all_goals
      have heq : diffUpdateRow did F now r = { r with lastVerifiedAt := now } := by
        unfold diffUpdateRow
        rw [if_pos ⟨hp1, hp2⟩, if_pos (hx ▸ hF)]
      rw [heq]
    · exact ⟨hp1, hp2⟩
    · exact hx

/-- After one reconciliation run, the subject's stored active set is exactly
the observed set `F`, membership-wise. -/
theorem mem_activeFollows_applyFollowDiff (table : List FollowRow) (did : String)
    (F : List String) (now i : Nat) (x : String) :
    x ∈ activeFollows (applyFollowDiff table did F now i).1 did ↔ x ∈ F := by
  unfold applyFollowDiff
  rw [activeFollows_append, activeFollows_mkInsertRows, List.mem_append,
    mem_activeFollows_diffUpdate]
  simp only [List.mem_filter, decide_eq_true_eq]
  constructor
  · rintro (⟨-, hF⟩ | ⟨hF, -⟩) <;> exact hF
  · intro hF
    by_cases hS : x ∈ activeFollows table did
    · exact Or.inl ⟨hS, hF⟩
    · exact Or.inr ⟨hF, hS⟩

/-- Claim C9: running reconciliation a second time for the same subject with
the same observed follow-set changes nothing except `last_verified_at` on the
maintained (subject-active) edges — the second run's inserted count and
unfollowed count are both zero, and its table differs from the first run's
only by the refreshed verification stamp. -/
theorem reconciliation_idempotent (table : List FollowRow) (did : String)
    (F : List String) (n1 i1 n2 i2 : Nat) :
    (applyFollowDiff (applyFollowDiff table did F n1 i1).1 did F n2 i2).2.1 = 0 ∧
    (applyFollowDiff (applyFollowDiff table did F n1 i1).1 did F n2 i2).2.2.2 = 0 ∧
    (applyFollowDiff (applyFollowDiff table did F n1 i1).1 did F n2 i2).1
      = (applyFollowDiff table did F n1 i1).1.map
          fun r => if r.follower = did ∧ r.status = FollowStatus.active
                   then { r with lastVerifiedAt := n2 } else r := by
  have hS1 : ∀ x, x ∈ activeFollows (applyFollowDiff table did F n1 i1).1 did ↔ x ∈ F :=
    mem_activeFollows_applyFollowDiff table did F n1 i1
  have hnew : (F.filter fun d =>
      decide (d ∉ activeFollows (applyFollowDiff table did F n1 i1).1 did)) = [] := by
    rw [List.filter_eq_nil_iff]
    intro d hd
    simp only [decide_eq_true_eq, not_not]
    exact (hS1 d).mpr hd
  have hgone : ((activeFollows (applyFollowDiff table did F n1 i1).1 did).filter fun d =>
      decide (d ∉ F)) = [] := by
    rw [List.filter_eq_nil_iff]
    intro d hd
    simp only [decide_eq_true_eq, not_not]
    exact (hS1 d).mp hd
  refine ⟨?_, ?_, ?_⟩
  · show (F.filter fun d => decide (d ∉ _)).length = 0
    rw [hnew]
    rfl
  · show (List.filter _ (activeFollows _ did)).length = 0
    rw [hgone]
    rfl
  · show List.map (diffUpdateRow did F n2) _ ++ mkInsertRows did n2 i2 (F.filter _) = _
    rw [hnew]
    show List.map (diffUpdateRow did F n2) _ ++ [] = _
    rw [List.append_nil]
    apply List.map_congr_left
    intro r hr
    unfold diffUpdateRow
    by_cases hsa : r.follower = did ∧ r.status = FollowStatus.active
    · have hF : r.following ∈ F :=
        (hS1 r.following).mp (mem_activeFollows_of _ did r hr hsa.1 hsa.2)
      rw [if_pos hsa, if_pos hF, if_pos hsa]
    · rw [if_neg hsa, if_neg hsa]

/-! ## No reactivation of unfollowed edges (C4) -/

/-- Appending rows does not change the status of an existing row id. -/
theorem statusOf_append (t t' : List FollowRow) (fid : Nat) (s : FollowStatus)
    (h : statusOf t fid = some s) : statusOf (t ++ t') fid = some s := by
  unfold statusOf at h ⊢
  obtain ⟨r, hfind, hstat⟩ := Option.map_eq_some'.mp h
  rw [List.find?_append, hfind]
  simpa using hstat

/-- For an id-preserving row transformation, looking a row up by id after the
map finds the transform of the row found before the map. -/
theorem statusOf_map (t : List FollowRow) (f : FollowRow → FollowRow) (fid : Nat)
    (hpres : ∀ r, (f r).id = r.id) :
    statusOf (t.map f) fid
      = (t.find? fun r => decide (r.id = fid)).map fun r => (f r).status := by
  unfold statusOf
  rw [List.find?_map]
  have hcomp : ((fun r : FollowRow => decide (r.id = fid)) ∘ f)
      = fun r : FollowRow => decide (r.id = fid) := by
    funext r
    simp [Function.comp, hpres r]
  rw [hcomp, Option.map_map]
  rfl

/-- Claim C4: once a follow edge is `unfollowed`, no operation of the core —
an edge insertion attempt for any pair, an unfollow-detection pass, or a
reconciliation run (re-observation of the pair included, since `S` contains
only active edges) — ever transitions that row back to active. -/
theorem unfollowed_never_reactivated (table : List FollowRow) (fid : Nat)
    (a b did : String) (i n now : Nat) (F : List String)
    (h : statusOf table fid = some FollowStatus.unfollowed) :
    statusOf (addFollowRelationship table a b i n).2 fid = some FollowStatus.unfollowed ∧
    statusOf (processAccountUnfollows table did F now) fid = some FollowStatus.unfollowed ∧
    statusOf (applyFollowDiff table did F now i).1 fid = some FollowStatus.unfollowed := by
  obtain ⟨r, hfind, hstat⟩ := Option.map_eq_some'.mp h
  refine ⟨?_, ?_, ?_⟩
  · unfold addFollowRelationship
    cases hc : table.find? fun r => decide (r.follower = a ∧ r.following = b) with
    | some r' => exact h
    | none => exact statusOf_append _ _ _ _ h
  · unfold processAccountUnfollows
    rw [foldl_markUnfollowed_eq]
    have hpres : ∀ r : FollowRow,
        (if r.id ∈ (unfollowedPairs table did F).map Prod.snd
         then retireRow now r else r).id = r.id := by
      intro r
      by_cases hin : r.id ∈ (unfollowedPairs table did F).map Prod.snd
      · rw [if_pos hin]
        rfl
      · rw [if_neg hin]
    rw [statusOf_map _ _ fid hpres]
    rw [hfind]
    simp only [Option.map_some']
    by_cases hin : r.id ∈ (unfollowedPairs table did F).map Prod.snd
    · rw [if_pos hin]
      rfl
    · rw [if_neg hin, hstat]
  · show statusOf (table.map (diffUpdateRow did F now) ++ _) fid = _
    apply statusOf_append
    rw [statusOf_map _ _ fid (by
      intro r
      unfold diffUpdateRow
      by_cases hsa : r.follower = did ∧ r.status = FollowStatus.active
      · rw [if_pos hsa]
        by_cases hF : r.following ∈ F
        · rw [if_pos hF]
        · rw [if_neg hF]; rfl
      · rw [if_neg hsa])]
    rw [hfind]
    simp only [Option.map_some']
    have hne : ¬(r.follower = did ∧ r.status = FollowStatus.active) := by
      rintro ⟨-, hact⟩
      rw [hact] at hstat
      exact absurd hstat (by simp)
    unfold diffUpdateRow
    rw [if_neg hne, hstat]

/-- Witness for C4: row 1 (`x → a`) is unfollowed; after an insertion attempt
for the same pair, a detection pass that re-observes `a` as followed, and a
reconciliation run re-observing `a`, row 1 is still unfollowed. -/
theorem unfollowed_never_reactivated_witness :
    statusOf (addFollowRelationship
      [{ id := 1, follower := "x", following := "a", status := FollowStatus.unfollowed,
         createdAt := 0, lastVerifiedAt := 0, unfollowedAt := some 3 }]
      "x" "a" 2 7).2 1 = some FollowStatus.unfollowed ∧
    statusOf (processAccountUnfollows
      [{ id := 1, follower := "x", following := "a", status := FollowStatus.unfollowed,
         createdAt := 0, lastVerifiedAt := 0, unfollowedAt := some 3 }]
      "x" ["a"] 7) 1 = some FollowStatus.unfollowed ∧
    statusOf (applyFollowDiff
      [{ id := 1, follower := "x", following := "a", status := FollowStatus.unfollowed,
         createdAt := 0, lastVerifiedAt := 0, unfollowedAt := some 3 }]
      "x" ["a"] 7 2).1 1 = some FollowStatus.unfollowed :=
  unfollowed_never_reactivated _ 1 "x" "a" "x" 2 7 7 ["a"] (by decide)

/-! ## No duplicate edges (C3) -/

/-- A row transformation preserving both endpoint columns preserves the
number of rows per ordered pair. -/
theorem pairCount_map (t : List FollowRow) (f : FollowRow → FollowRow) (a b : String)
    (hpres : ∀ r, (f r).follower = r.follower ∧ (f r).following = r.following) :
    pairCount (t.map f) a b = pairCount t a b := by
  unfold pairCount
  rw [List.filter_map, List.length_map]
  congr 1
  apply List.filter_congr
  intro x _
  simp [Function.comp, (hpres x).1, (hpres x).2]

/-- Appending one row adds one to the count of its own pair and nothing to
any other pair. -/
theorem pairCount_append_single (t : List FollowRow) (r : FollowRow) (a b : String) :
    pairCount (t ++ [r]) a b
      = pairCount t a b + if r.follower = a ∧ r.following = b then 1 else 0 := by
  unfold pairCount
  rw [List.filter_append, List.length_append]
  congr 1
  by_cases hp : r.follower = a ∧ r.following = b
  · rw [if_pos hp]
    simp [List.filter_cons, hp]
  · rw [if_neg hp]
    simp [List.filter_cons, hp]

/-- When the duplicate-check select finds nothing, no row for the pair
exists. -/
theorem pairCount_eq_zero_of_find?_none (t : List FollowRow) (a b : String)
    (h : (t.find? fun r => decide (r.follower = a ∧ r.following = b)) = none) :
    pairCount t a b = 0 := by
  unfold pairCount
  have hnil : (t.filter fun r => decide (r.follower = a ∧ r.following = b)) = [] := by
    rw [List.filter_eq_nil_iff]
    intro x hx
    have := List.find?_eq_none.mp h x hx
    simpa using this
  rw [hnil]
  rfl

/-- One pipeline operation preserves the at-most-one-row-per-pair invariant. -/
theorem applyOp_pairCount_le (t : List FollowRow) (op : CrawlOp)
    (h : ∀ a b, pairCount t a b ≤ 1) : ∀ a b, pairCount (applyOp t op) a b ≤ 1 := by
  cases op with
  | addF a' b' i' n' =>
      intro a b
      show pairCount (addFollowRelationship t a' b' i' n').2 a b ≤ 1
      unfold addFollowRelationship
      cases hc : t.find? fun r => decide (r.follower = a' ∧ r.following = b') with
      | some r =>
          exact h a b
      | none =>
          show pairCount (t ++ [_]) a b ≤ 1
          rw [pairCount_append_single]
          by_cases hab : a' = a ∧ b' = b
          · rw [if_pos hab]
            have h0 : pairCount t a b = 0 := by
              apply pairCount_eq_zero_of_find?_none
              rw [← hab.1, ← hab.2]
              exact hc
            omega
          · rw [if_neg hab]
            have := h a b
            omega
  | unfPass did F now =>
      intro a b
      show pairCount (processAccountUnfollows t did F now) a b ≤ 1
      unfold processAccountUnfollows
      rw [foldl_markUnfollowed_eq, pairCount_map]
      · exact h a b
      · intro r
        by_cases hin : r.id ∈ (unfollowedPairs t did F).map Prod.snd
        · rw [if_pos hin]
          exact ⟨rfl, rfl⟩
        · rw [if_neg hin]
          exact ⟨rfl, rfl⟩

/-- Any sequence of pipeline operations preserves the invariant. -/
theorem applyOps_pairCount_le (ops : List CrawlOp) :
    ∀ t, (∀ a b, pairCount t a b ≤ 1) → ∀ a b, pairCount (applyOps t ops) a b ≤ 1 := by
  induction ops with
  | nil => intro t h; exact h
  | cons op rest ih =>
      intro t h
      show ∀ a b, pairCount (List.foldl applyOp t (op :: rest)) a b ≤ 1
      rw [List.foldl_cons]
      exact ih _ (applyOp_pairCount_le t op h)

/-- Claim C3: starting from a table with at most one row per ordered pair,
any sequence of crawl insertions and unfollow-detection passes leaves at most
one row per ordered pair; and an insertion attempt for a pair that already
has a row returns that (first matching) row and changes the table not at
all. -/
theorem no_duplicate_edges (table : List FollowRow) (ops : List CrawlOp)
    (h : ∀ a b, pairCount table a b ≤ 1) :
    (∀ a b, pairCount (applyOps table ops) a b ≤ 1) ∧
    (∀ a b i n, 1 ≤ pairCount table a b →
      (addFollowRelationship table a b i n).2 = table ∧
      (addFollowRelationship table a b i n).1
        = table.find? fun r => decide (r.follower = a ∧ r.following = b)) := by
  refine ⟨applyOps_pairCount_le ops table h, ?_⟩
  intro a b i n hge
  cases hr : table.find? fun r => decide (r.follower = a ∧ r.following = b) with
  | none =>
      have h0 := pairCount_eq_zero_of_find?_none table a b hr
      omega
  | some r =>
      unfold addFollowRelationship
      rw [hr]
      exact ⟨rfl, rfl⟩

/-- Witness for C3: from the empty table, inserting the same pair twice and
running a detection pass leaves at most one row for that pair. -/
theorem no_duplicate_edges_witness :
    pairCount (applyOps []
      [CrawlOp.addF "a" "b" 1 0, CrawlOp.addF "a" "b" 2 5,
        CrawlOp.unfPass "a" [] 6]) "a" "b" ≤ 1 :=
  (no_duplicate_edges []
    [CrawlOp.addF "a" "b" 1 0, CrawlOp.addF "a" "b" 2 5, CrawlOp.unfPass "a" [] 6]
    (fun a b => by simp [pairCount])).1 "a" "b"

end Artifish
